import Mathlib

/-!
Verification development for the OPDS catalog client (calibre plugin).

The definitions below are a shallow embedding of `src/calibre_plugin/model.py`
and `src/calibre_plugin/main.py`: the entry classifier (`opdsToMetadata`), the
pagination worker (`_PagerWorker.run` / `findNextUrl`), the store operations
(`filterBooks`, `_append_batch`, `_apply_first_page`, the filter setters) and
the dialog-level navigation (`_activateCurrentItem` descent, `_navigateBack`).

External capabilities are parameters: `uj` stands for `urllib.parse.urljoin`,
`inLib` for the cached library-membership check (`db.has_book` plus its
per-object cache), `fetch` for one page download plus feed parse.

Python string operations are re-implemented on `List Char` so that every
definition evaluates inside the kernel.
-/

namespace Opds

/-- Boolean prefix test on char lists, mirroring `str.startswith`. -/
def isPrefixL : List Char → List Char → Bool
  | [], _ => true
  | _ :: _, [] => false
  | p :: ps, c :: cs => p == c && isPrefixL ps cs

/-- Replace every non-overlapping occurrence of `pat` (left to right), with
explicit fuel; mirrors `str.replace(pat, rep)` for non-empty `pat`. -/
def replAux (pat rep : List Char) : Nat → List Char → List Char
  | _, [] => []
  | 0, s => s
  | n + 1, c :: cs =>
    if pat ≠ [] ∧ isPrefixL pat (c :: cs) then
      rep ++ replAux pat rep n ((c :: cs).drop pat.length)
    else
      c :: replAux pat rep n cs

/-- Replace the first occurrence only; mirrors `str.replace(pat, rep, 1)`. -/
def replFirstL (pat rep : List Char) : List Char → List Char
  | [] => []
  | c :: cs =>
    if pat ≠ [] ∧ isPrefixL pat (c :: cs) then
      rep ++ (c :: cs).drop pat.length
    else
      c :: replFirstL pat rep cs

/-- Split on a single separator character; mirrors `str.split(sep)` for a
one-character separator (always returns at least one piece). -/
def splitOnCharL (sep : Char) : List Char → List (List Char)
  | [] => [[]]
  | c :: cs =>
    if c == sep then
      [] :: splitOnCharL sep cs
    else
      match splitOnCharL sep cs with
      | [] => [[c]]
      | t :: ts => (c :: t) :: ts

/-- Line-boundary characters recognized by `str.splitlines`. -/
def isLineBoundary (c : Char) : Bool :=
  c == '\n' || c == '\r' || c == '\x0b' || c == '\x0c' ||
  c == '\x1c' || c == '\x1d' || c == '\x1e' || c == '\x85' ||
  c == '\u2028' || c == '\u2029'

/-- Worker for `splitLinesL`; the accumulator holds the current line reversed. -/
def splitLinesGo (acc : List Char) : List Char → List (List Char)
  | [] => if acc.isEmpty then [] else [acc.reverse]
  | '\r' :: '\n' :: r => acc.reverse :: splitLinesGo [] r
  | c :: r =>
    if isLineBoundary c then
      acc.reverse :: splitLinesGo [] r
    else
      splitLinesGo (c :: acc) r

/-- Mirrors `str.splitlines()` (no trailing empty line, `""` gives `[]`). -/
def splitLinesL (s : List Char) : List (List Char) :=
  splitLinesGo [] s

def replaceAllS (pat rep s : String) : String :=
  ⟨replAux pat.data rep.data s.data.length s.data⟩

def replFirstS (pat rep s : String) : String :=
  ⟨replFirstL pat.data rep.data s.data⟩

def splitOnCharS (sep : Char) (s : String) : List String :=
  (splitOnCharL sep s.data).map (fun l => String.mk l)

def startsWithS (p s : String) : Bool :=
  isPrefixL p.data s.data

def splitLinesS (s : String) : List String :=
  (splitLinesL s.data).map (fun l => String.mk l)

/-- Naive timestamp record produced by `datetime.datetime.strptime`. -/
structure DateTime where
  year : Nat
  month : Nat
  day : Nat
  hour : Nat
  minute : Nat
  second : Nat
deriving DecidableEq, Repr

def digitsToNat (cs : List Char) : Nat :=
  cs.foldl (fun a c => a * 10 + (c.toNat - 48)) 0

def allDigits (cs : List Char) : Bool :=
  cs.all Char.isDigit

def isLeapYear (y : Nat) : Bool :=
  y % 4 == 0 && (y % 100 != 0 || y % 400 == 0)

def daysInMonth (y m : Nat) : Nat :=
  if m == 2 then (if isLeapYear y then 29 else 28)
  else if m == 4 || m == 6 || m == 9 || m == 11 then 30
  else 31

/-- Mirrors `datetime.datetime.strptime(s, "%Y-%m-%dT%H:%M:%S")`: a 4-digit
year, 1-2 digit month/day/hour/minute/second, with calendar validation;
`none` models the `ValueError` raised on any mismatch. -/
def parseTsL (s : List Char) : Option DateTime :=
  match splitOnCharL 'T' s with
  | [d, t] =>
    (match splitOnCharL '-' d, splitOnCharL ':' t with
     | [ys, mos, das], [hs, mis, ss] =>
       if allDigits ys ∧ ys.length = 4 ∧
          allDigits mos ∧ mos.length ≠ 0 ∧ mos.length ≤ 2 ∧
          allDigits das ∧ das.length ≠ 0 ∧ das.length ≤ 2 ∧
          allDigits hs ∧ hs.length ≠ 0 ∧ hs.length ≤ 2 ∧
          allDigits mis ∧ mis.length ≠ 0 ∧ mis.length ≤ 2 ∧
          allDigits ss ∧ ss.length ≠ 0 ∧ ss.length ≤ 2 then
         let y := digitsToNat ys
         let mo := digitsToNat mos
         let da := digitsToNat das
         let h := digitsToNat hs
         let mi := digitsToNat mis
         let se := digitsToNat ss
         if 1 ≤ y ∧ 1 ≤ mo ∧ mo ≤ 12 ∧ 1 ≤ da ∧ da ≤ daysInMonth y mo ∧
            h ≤ 23 ∧ mi ≤ 59 ∧ se ≤ 59 then
           some ⟨y, mo, da, h, mi, se⟩
         else none
       else none
     | _, _ => none)
  | _ => none

def parseTsS (s : String) : Option DateTime :=
  parseTsL s.data

/-- Does the reversed string start with a reversed `+0[0-9]:00` offset? -/
def offsetMatch (r : List Char) : Bool :=
  match r with
  | a :: b :: c :: d :: e :: f :: _ =>
    a == '0' && b == '0' && c == ':' && d.isDigit && e == '0' && f == '+'
  | _ => false

/-- Mirrors `re.sub(r"((\.[0-9]+)?\+0[0-9]:00|Z)$", "", s)`: strip a trailing
`Z`, or a trailing single-digit-hour UTC offset optionally preceded by a
fractional-seconds group. -/
def stripTzL (s : List Char) : List Char :=
  let r := s.reverse
  if r.head? = some 'Z' then
    (r.drop 1).reverse
  else if offsetMatch r then
    let rest := r.drop 6
    let digs := rest.takeWhile Char.isDigit
    if digs ≠ [] ∧ (rest.drop digs.length).head? = some '.' then
      (rest.drop (digs.length + 1)).reverse
    else
      rest.reverse
  else s

def stripTzS (s : String) : String :=
  ⟨stripTzL s.data⟩

/-- One `<link>` element of a feed entry (or of the feed itself). A missing
attribute is represented by `""`, matching the falsy defaults the source uses
(`link.get("href", "")`, `link.get("type", "") or ""`, `getattr(link, "rel",
None)`). -/
structure OpdsLink where
  href : String
  rel : String
  ltype : String
deriving DecidableEq, Repr

/-- One parsed feed entry, as consumed by `OpdsBooksModel.opdsToMetadata`:
`title` is accessed unconditionally, `author`/`id`/`updated` are optional,
`summary` defaults to `""`. -/
structure OpdsEntry where
  title : String
  author : Option String
  id : Option String
  updated : Option String
  summary : String
  links : List OpdsLink
deriving DecidableEq, Repr

/-- One parsed feed document: entries, feed-level links (used for `rel=next`
discovery) and the optional `server` response header. -/
structure OpdsFeed where
  entries : List OpdsEntry
  links : List OpdsLink
  serverHeader : Option String
deriving DecidableEq, Repr

deriving instance DecidableEq for Except

/-- Result of `opdsToMetadata` (a calibre `Metadata` object plus the dynamic
attributes the model sets on it). `catalogUrl = none` models the attribute
being absent (`hasattr(book, "catalogUrl")` is false). -/
structure BookMetadata where
  title : String
  authors : List String
  uuid : String
  timestamp : Option DateTime
  tags : List String
  links : List String
  catalogUrl : Option String
deriving DecidableEq, Repr

/-- Mirrors `OpdsBooksModel._absolutize`: empty hrefs pass through untouched,
anything else goes through `urljoin` (abstracted as the parameter `uj`). -/
def absolutize (uj : String → String → String) (base url : String) : String :=
  if url = "" then url else uj base url

def isImageL (l : OpdsLink) : Bool :=
  startsWithS "image/" l.ltype

def isAtomL (l : OpdsLink) : Bool :=
  startsWithS "application/atom+xml" l.ltype

def isEpubL (l : OpdsLink) : Bool :=
  l.ltype == "application/epub+zip"

/-- A link that contributes to `bookDownloadUrls`: neither a cover/thumbnail
nor a nested-catalog link. -/
def isDownloadL (l : OpdsLink) : Bool :=
  !isImageL l && !isAtomL l

def linkUrl (uj : String → String → String) (base : String) (l : OpdsLink) : String :=
  absolutize uj base l.href

/-- The link loop of `opdsToMetadata`: accumulates `bookDownloadUrls` (EPUB
inserted at the head, everything else appended) and remembers the first
nested-catalog URL. -/
def classifyLinks (uj : String → String → String) (base : String) :
    List OpdsLink → List String → Option String → List String × Option String
  | [], acc, cat => (acc, cat)
  | l :: ls, acc, cat =>
    let url := absolutize uj base l.href
    if isImageL l then
      classifyLinks uj base ls acc cat
    else if isAtomL l then
      classifyLinks uj base ls acc (match cat with | none => some url | some c => some c)
    else if isEpubL l then
      classifyLinks uj base ls (url :: acc) cat
    else
      classifyLinks uj base ls (acc ++ [url]) cat

/-- The final decision of `opdsToMetadata`: a non-empty download list wins
(plain book, no `catalogUrl` attribute); otherwise a truthy (non-empty)
remembered catalog URL makes the row a sub-catalog; otherwise an inert row. -/
def linkDecision (uj : String → String → String) (base : String)
    (links : List OpdsLink) : List String × Option String :=
  let lc := classifyLinks uj base links [] none
  if lc.1.isEmpty then
    match lc.2 with
    | some c => if c = "" then ([], none) else ([], some c)
    | none => ([], none)
  else (lc.1, none)

def processTagsLine (line : String) : List String :=
  splitOnCharS ',' (replaceAllS ", " "," (replaceAllS "<br />" "" (replaceAllS "TAGS: " "" line)))

/-- The tag loop of `opdsToMetadata`: every line starting with `"TAGS: "`
overwrites `tags`, so the last such line is the one kept. -/
def extractTagsLines (lines : List String) : List String :=
  lines.foldl (fun acc l => if startsWithS "TAGS: " l then processTagsLine l else acc) []

def extractTags (summary : String) : List String :=
  extractTagsLines (splitLinesS summary)

def rawTimestampOf (e : OpdsEntry) : String :=
  match e.updated with
  | some u => u
  | none => "1980-01-01T00:00:00+00:00"

/-- Mirrors `OpdsBooksModel.opdsToMetadata`. `none` models the `ValueError`
escaping from `strptime` on an unparseable `updated` value (the only raising
operation in the body). -/
def opdsToMetadata (uj : String → String → String) (base : String)
    (e : OpdsEntry) : Option BookMetadata :=
  let authorsStr := match e.author with
    | some a => replaceAllS "& " "&" a
    | none => ""
  let authors := splitOnCharS '&' authorsStr
  let uuid := match e.id with
    | some i => replFirstS "urn:uuid:" "" i
    | none => ""
  match parseTsS (stripTzS (rawTimestampOf e)) with
  | none => none
  | some ts =>
    let tags := extractTags e.summary
    let lc := linkDecision uj base e.links
    some { title := e.title, authors := authors, uuid := uuid,
           timestamp := some ts, tags := tags, links := lc.1, catalogUrl := lc.2 }

/-- Mirrors `OpdsBooksModel.makeMetadataFromParsedOpds`: an exception from any
single entry aborts the whole conversion. -/
def makeMetadataFromParsedOpds (uj : String → String → String) (base : String)
    (entries : List OpdsEntry) : Option (List BookMetadata) :=
  entries.mapM (opdsToMetadata uj base)

/-- Mirrors `OpdsBooksModel.findNextUrl`: first feed-level link with
`rel == "next"` and a truthy href wins; its href is absolutized. -/
def findNextUrl (uj : String → String → String) :
    List OpdsLink → String → Option String
  | [], _ => none
  | l :: ls, base =>
    if l.rel = "next" ∧ l.href ≠ "" then
      some (absolutize uj base l.href)
    else
      findNextUrl uj ls base

/-! ## Filtering and the store -/

/-- Mirrors `OpdsBooksModel.isFilteredNews`. -/
def isFilteredNews (flagNews : Bool) (b : BookMetadata) : Bool :=
  flagNews && b.tags.contains "News"

/-- Mirrors `OpdsBooksModel._isBookInLibrary`: rows carrying a `catalogUrl`
attribute are never "in library"; otherwise the cached membership check
(parameter `inLib`) decides. -/
def isBookInLibrary (inLib : BookMetadata → Bool) (b : BookMetadata) : Bool :=
  if b.catalogUrl.isSome then false else inLib b

/-- Mirrors `OpdsBooksModel.isFilteredAlreadyInLibrary`. -/
def isFilteredAlreadyInLibrary (flagLib : Bool) (inLib : BookMetadata → Bool)
    (b : BookMetadata) : Bool :=
  flagLib && isBookInLibrary inLib b

/-- The conjunction of the two filter predicates, as used by `filterBooks`,
`_append_batch` and `_apply_first_page`. -/
def acceptBook (flagNews flagLib : Bool) (inLib : BookMetadata → Bool)
    (b : BookMetadata) : Bool :=
  !isFilteredNews flagNews b && !isFilteredAlreadyInLibrary flagLib inLib b

/-- The mutable state of `OpdsBooksModel` that the claims are about, plus the
liveness flags of its two worker threads. -/
structure Store where
  books : List BookMetadata
  filteredBooks : List BookMetadata
  flagNews : Bool
  flagLib : Bool
  serverHeader : String
  currentBaseUrl : String
  pagerActive : Bool
  firstActive : Bool
deriving DecidableEq, Repr

/-- Mirrors `OpdsBooksModel.filterBooks`: full recompute of the filtered
projection from the current book list. -/
def filterBooks (inLib : BookMetadata → Bool) (st : Store) : Store :=
  { st with filteredBooks := st.books.filter (acceptBook st.flagNews st.flagLib inLib) }

/-- Mirrors `OpdsBooksModel.setFilterBooksThatAreNewspapers`. -/
def setFilterNews (inLib : BookMetadata → Bool) (v : Bool) (st : Store) : Store :=
  if v ≠ st.flagNews then filterBooks inLib { st with flagNews := v } else st

/-- Mirrors `OpdsBooksModel.setFilterBooksThatAreAlreadyInLibrary`. -/
def setFilterLib (inLib : BookMetadata → Bool) (v : Bool) (st : Store) : Store :=
  if v ≠ st.flagLib then filterBooks inLib { st with flagLib := v } else st

/-- Mirrors `OpdsBooksModel._append_batch`: an all-rejected batch is dropped
without touching `books`; otherwise the whole batch is appended to `books`
and only the accepted rows to `filteredBooks`. -/
def appendBatch (inLib : BookMetadata → Bool) (st : Store)
    (batch : List BookMetadata) : Store :=
  let accepted := batch.filter (acceptBook st.flagNews st.flagLib inLib)
  if accepted.isEmpty then st
  else { st with books := st.books ++ batch,
                 filteredBooks := st.filteredBooks ++ accepted }

/-- Mirrors `OpdsBooksModel._apply_first_page`. The `Bool` is `false` when the
entry conversion raises: the server header has already been overwritten at
that point, but `books`/`filteredBooks` have not been touched. On success the
continuation pager is started when a truthy next URL exists. -/
def applyFirstPage (inLib : BookMetadata → Bool) (uj : String → String → String)
    (st : Store) (feed : OpdsFeed) (base : String) : Store × Bool :=
  let st1 := { st with serverHeader := match feed.serverHeader with
                                       | some s => s
                                       | none => "none" }
  match makeMetadataFromParsedOpds uj base feed.entries with
  | none => (st1, false)
  | some ms =>
    let st2 := { st1 with books := ms,
                          filteredBooks := ms.filter (acceptBook st1.flagNews st1.flagLib inLib) }
    match findNextUrl uj feed.links base with
    | some nu => if nu = "" then (st2, true) else ({ st2 with pagerActive := true }, true)
    | none => (st2, true)

/-- Outcome reported to the dialog by `downloadOpdsCatalogAsync`: `ready` for
`on_ready`, the other two for `on_error` (worker `failed` signal, or an
exception escaping `_apply_first_page` inside `handle_feed`). -/
inductive FirstPageOutcome where
  | ready
  | fetchError (msg : String)
  | applyError
deriving DecidableEq, Repr

/-- Mirrors `OpdsBooksModel.downloadOpdsCatalogAsync`, with the eventual
first-page fetch result passed in as `fetchResult`. -/
def downloadOpdsCatalogAsync (inLib : BookMetadata → Bool)
    (uj : String → String → String) (st : Store) (url : String)
    (fetchResult : Except String OpdsFeed) : Store × FirstPageOutcome :=
  let st0 := { st with pagerActive := false, firstActive := true, currentBaseUrl := url }
  match fetchResult with
  | .error msg => (st0, .fetchError msg)
  | .ok feed =>
    let r := applyFirstPage inLib uj st0 feed url
    if r.2 then (r.1, .ready) else (r.1, .applyError)

/-! ## The continuation pager -/

/-- Observable events of one `_PagerWorker.run` execution. Each event records
the index of the `isInterruptionRequested()` poll that let it through. -/
inductive PagerEvent where
  | fetchStarted (url : String) (poll : Nat)
  | batchEmitted (books : List BookMetadata) (poll : Nat)
  | failEmitted (msg : String) (poll : Nat)
deriving DecidableEq, Repr

def pollOf : PagerEvent → Nat
  | .fetchStarted _ p => p
  | .batchEmitted _ p => p
  | .failEmitted _ p => p

/-- Mirrors `_PagerWorker.run`. The guard polls the interruption flag (poll
index `c`), fetches, and on success polls again (index `c + 1`) before
emitting `batchReady`; on a fetch exception the flag is polled before
emitting `pageFailed` and the loop breaks. A conversion failure propagates
out of the thread with no further event. `fuel` bounds the page count (the
Python loop is unbounded on a cyclic next chain). -/
def runPager (uj : String → String → String)
    (fetch : String → Except String OpdsFeed) (flag : Nat → Bool) :
    Nat → String → Nat → List PagerEvent
  | 0, _, _ => []
  | fuel + 1, url, c =>
    if url = "" then []
    else if flag c then []
    else
      PagerEvent.fetchStarted url c ::
      match fetch url with
      | .error msg => if flag (c + 1) then [] else [PagerEvent.failEmitted msg (c + 1)]
      | .ok feed =>
        match makeMetadataFromParsedOpds uj url feed.entries with
        | none => []
        | some books =>
          if flag (c + 1) then []
          else
            PagerEvent.batchEmitted books (c + 1) ::
            runPager uj fetch flag fuel ((findNextUrl uj feed.links url).getD "") (c + 2)

/-- One page of a well-formed chain: its URL, the feed served there and the
metadata its entries convert to. -/
structure PageSpec where
  url : String
  feed : OpdsFeed
  books : List BookMetadata
deriving Repr

/-- The page list is a `rel=next` chain under `fetch`: every page fetches
successfully, converts successfully, and links to the next page's URL; the
last page has no usable next link. -/
def chainOk (uj : String → String → String)
    (fetch : String → Except String OpdsFeed) : List PageSpec → Prop
  | [] => True
  | p :: rest =>
    p.url ≠ "" ∧ fetch p.url = .ok p.feed ∧
    makeMetadataFromParsedOpds uj p.url p.feed.entries = some p.books ∧
    (match rest with
     | [] => findNextUrl uj p.feed.links p.url = none
     | q :: _ => findNextUrl uj p.feed.links p.url = some q.url) ∧
    chainOk uj fetch rest

/-- Like `chainOk`, but the chain ends by linking to `bad`, a URL whose fetch
fails. An empty list means the walk starts at `bad` directly. -/
def chainToFail (uj : String → String → String)
    (fetch : String → Except String OpdsFeed) : List PageSpec → String → Prop
  | [], bad => bad ≠ ""
  | p :: rest, bad =>
    p.url ≠ "" ∧ fetch p.url = .ok p.feed ∧
    makeMetadataFromParsedOpds uj p.url p.feed.entries = some p.books ∧
    (match rest with
     | [] => findNextUrl uj p.feed.links p.url = some bad
     | q :: _ => findNextUrl uj p.feed.links p.url = some q.url) ∧
    chainToFail uj fetch rest bad

/-- The trace an uncancelled walk of a healthy chain produces: one fetch and
one batch per page, in page order. -/
def expectedTrace : List PageSpec → Nat → List PagerEvent
  | [], _ => []
  | p :: rest, c =>
    PagerEvent.fetchStarted p.url c :: PagerEvent.batchEmitted p.books (c + 1) ::
    expectedTrace rest (c + 2)

/-! ## Dialog-level navigation (`main.py`) -/

/-- The tuple pushed on `catalogHistory` by `_activateCurrentItem`. -/
structure Snapshot where
  books : List BookMetadata
  serverHeader : String
  url : Option String
  breadcrumbs : List String
deriving DecidableEq, Repr

/-- The `OpdsDialog` state the navigation claims are about. -/
structure Dialog where
  store : Store
  catalogHistory : List Snapshot
  currentCatalogUrl : Option String
  breadcrumbs : List String
  opdsUrlText : String
deriving DecidableEq, Repr

/-- Mirrors `OpdsDialog._resolveUrl`: join against the current catalog URL,
falling back to the URL editor text when there is none. -/
def resolveUrl (uj : String → String → String) (d : Dialog) (url : String) : String :=
  let base := match d.currentCatalogUrl with
    | some u => if u = "" then d.opdsUrlText else u
    | none => d.opdsUrlText
  uj base url

/-- Mirrors the sub-catalog branch of `OpdsDialog._activateCurrentItem`
followed by `_openCatalog` up to the point where the asynchronous first-page
fetch is issued: push a snapshot of the current state, push a breadcrumb, set
the new catalog URL, stop the previous pager, cancel the previous first-page
worker and start a new one. -/
def activateSubcatalogItem (uj : String → String → String) (d : Dialog)
    (title : String) (catUrl : String) : Dialog :=
  let snap : Snapshot :=
    ⟨d.store.books, d.store.serverHeader, d.currentCatalogUrl, d.breadcrumbs⟩
  let resolved := resolveUrl uj d catUrl
  { d with catalogHistory := snap :: d.catalogHistory,
           breadcrumbs := d.breadcrumbs ++ [title],
           currentCatalogUrl := some resolved,
           store := { d.store with pagerActive := false, firstActive := true,
                                   currentBaseUrl := resolved } }

/-- Mirrors `OpdsDialog._navigateBack`: no-op on an empty stack; otherwise
cancel both workers, pop the snapshot, restore books and server header, rerun
`filterBooks` under the *current* filter flags, and restore URL and
breadcrumbs. -/
def navigateBack (inLib : BookMetadata → Bool) (d : Dialog) : Dialog :=
  match d.catalogHistory with
  | [] => d
  | snap :: rest =>
    let st0 := { d.store with firstActive := false, pagerActive := false }
    let st1 := filterBooks inLib { st0 with books := snap.books,
                                            serverHeader := snap.serverHeader }
    { store := st1, catalogHistory := rest, currentCatalogUrl := snap.url,
      breadcrumbs := snap.breadcrumbs, opdsUrlText := d.opdsUrlText }

/-! ## Concrete instances used by witnesses and counterexamples -/

/-- A simple join function standing in for `urljoin` in concrete runs (all
demo hrefs are treated as already absolute). -/
def uj0 : String → String → String := fun _ u => u

/-- An entry whose only link is a nested-catalog link with an empty href. -/
def entryAtomEmptyHref : OpdsEntry :=
  { title := "t", author := none, id := none, updated := none, summary := "",
    links := [{ href := "", rel := "", ltype := "application/atom+xml" }] }

/-- An entry with one PDF download link. -/
def entryPdf : OpdsEntry :=
  { title := "t", author := none, id := none, updated := none, summary := "",
    links := [{ href := "b", rel := "", ltype := "application/pdf" }] }

/-- The metadata `entryPdf` converts to. -/
def mPdf : BookMetadata :=
  { title := "t", authors := [""], uuid := "",
    timestamp := some ⟨1980, 1, 1, 0, 0, 0⟩, tags := [], links := ["b"],
    catalogUrl := none }

/-- An entry carrying two EPUB links. -/
def entryTwoEpubs : OpdsEntry :=
  { title := "t", author := none, id := none, updated := none, summary := "",
    links := [{ href := "A", rel := "", ltype := "application/epub+zip" },
              { href := "B", rel := "", ltype := "application/epub+zip" }] }

/-- An entry with one EPUB link followed by one PDF link. -/
def entryEpubPdf : OpdsEntry :=
  { title := "t", author := none, id := none, updated := none, summary := "",
    links := [{ href := "A", rel := "", ltype := "application/epub+zip" },
              { href := "B", rel := "", ltype := "application/pdf" }] }

/-- The metadata `entryEpubPdf` converts to. -/
def mEpubPdf : BookMetadata :=
  { title := "t", authors := [""], uuid := "",
    timestamp := some ⟨1980, 1, 1, 0, 0, 0⟩, tags := [], links := ["A", "B"],
    catalogUrl := none }

/-- A library-membership oracle that never matches. -/
def inLib0 : BookMetadata → Bool := fun _ => false

/-- An entry whose summary carries a single `TAGS:` line. -/
def entryTags : OpdsEntry :=
  { title := "t", author := none, id := none, updated := none,
    summary := "TAGS: Fiction, News", links := [] }

/-- The metadata `entryTags` converts to. -/
def mTags : BookMetadata :=
  { title := "t", authors := [""], uuid := "",
    timestamp := some ⟨1980, 1, 1, 0, 0, 0⟩, tags := ["Fiction", "News"],
    links := [], catalogUrl := none }

/-- An entry whose summary carries two `TAGS:` lines. -/
def entryTwoTags : OpdsEntry :=
  { title := "t", author := none, id := none, updated := none,
    summary := "TAGS: A\nTAGS: B", links := [] }

/-- A store with the hide-newspapers filter active. -/
def stNewsOn : Store :=
  { books := [mTags], filteredBooks := [mTags], flagNews := true,
    flagLib := false, serverHeader := "none", currentBaseUrl := "",
    pagerActive := false, firstActive := false }

/-- The store invariant of C4: the visible list is the filtered projection of
the current book list under the current flags. -/
def storeInv (inLib : BookMetadata → Bool) (st : Store) : Prop :=
  st.filteredBooks = st.books.filter (acceptBook st.flagNews st.flagLib inLib)

/-- An entry whose `updated` value carries fractional seconds and an offset. -/
def entryUpdatedFrac : OpdsEntry :=
  { title := "t", author := none, id := none,
    updated := some "2021-03-01T10:00:00.123+02:00", summary := "", links := [] }

/-- An entry whose `updated` value does not parse; converting it raises. -/
def entryBadTs : OpdsEntry :=
  { title := "t", author := none, id := none, updated := some "garbage",
    summary := "", links := [] }

/-- Page 1 of the three-page demo chain. -/
def feed1 : OpdsFeed :=
  { entries := [], links := [{ href := "u2", rel := "next", ltype := "" }],
    serverHeader := none }

/-- Page 2 of the three-page demo chain. -/
def feed2 : OpdsFeed :=
  { entries := [], links := [{ href := "u3", rel := "next", ltype := "" }],
    serverHeader := none }

/-- Page 3 of the three-page demo chain: no next link. -/
def feed3 : OpdsFeed :=
  { entries := [], links := [], serverHeader := none }

/-- Fetch function serving the three-page demo chain. -/
def fetch3 : String → Except String OpdsFeed := fun u =>
  if u = "u1" then .ok feed1
  else if u = "u2" then .ok feed2
  else if u = "u3" then .ok feed3
  else .error "404"

def page1 : PageSpec := ⟨"u1", feed1, []⟩

def page2 : PageSpec := ⟨"u2", feed2, []⟩

def page3 : PageSpec := ⟨"u3", feed3, []⟩

/-- A page whose only `rel=next` link has an empty href. -/
def feedW : OpdsFeed :=
  { entries := [], links := [{ href := "", rel := "next", ltype := "" }],
    serverHeader := none }

/-- Fetch function serving only `feedW` at `"w1"`. -/
def fetchW : String → Except String OpdsFeed := fun u =>
  if u = "w1" then .ok feedW else .error "404"

/-- A healthy first page linking to a URL whose fetch fails. -/
def feedF1 : OpdsFeed :=
  { entries := [], links := [{ href := "fb", rel := "next", ltype := "" }],
    serverHeader := none }

/-- Fetch function: `"f1"` succeeds, everything else (including `"fb"`)
fails. -/
def fetchF : String → Except String OpdsFeed := fun u =>
  if u = "f1" then .ok feedF1 else .error "boom"

def pageF1 : PageSpec := ⟨"f1", feedF1, []⟩

/-- A feed whose single entry fails to convert. -/
def feedBad : OpdsFeed :=
  { entries := [entryBadTs], links := [], serverHeader := none }

/-- A newspaper row used in the store and navigation demos. -/
def bNews : BookMetadata :=
  { title := "n", authors := [], uuid := "", timestamp := none,
    tags := ["News"], links := ["x"], catalogUrl := none }

/-- A plain row used in the store and navigation demos. -/
def bPlain : BookMetadata :=
  { title := "p", authors := [], uuid := "", timestamp := none,
    tags := [], links := ["y"], catalogUrl := none }

/-- Catalog A's store: both rows visible, both filters off. -/
def st5 : Store :=
  { books := [bNews, bPlain], filteredBooks := [bNews, bPlain],
    flagNews := false, flagLib := false, serverHeader := "srv",
    currentBaseUrl := "", pagerActive := false, firstActive := false }

/-- The dialog sitting on catalog A. -/
def d5 : Dialog :=
  { store := st5, catalogHistory := [], currentCatalogUrl := some "http://a",
    breadcrumbs := ["Root"], opdsUrlText := "http://r" }

/-- The dialog right after descending from catalog A into catalog B. -/
def d5b : Dialog := activateSubcatalogItem uj0 d5 "B" "http://b"

/-- The dialog after additionally switching the hide-newspapers filter on
while inside catalog B. -/
def d5c : Dialog := { d5b with store := setFilterNews inLib0 true d5b.store }

/-- The snapshot `activateSubcatalogItem` pushes when leaving catalog A. -/
def snap5 : Snapshot :=
  ⟨[bNews, bPlain], "srv", some "http://a", ["Root"]⟩

/-- An empty store with the hide-newspapers filter active. -/
def st10 : Store :=
  { books := [], filteredBooks := [], flagNews := true, flagLib := false,
    serverHeader := "none", currentBaseUrl := "", pagerActive := false,
    firstActive := false }

/-! ## Helper lemmas about the classifier -/

/-- Links that end up in the EPUB bucket of `bookDownloadUrls`. -/
def epubLinksOf (ls : List OpdsLink) : List OpdsLink :=
  ls.filter (fun l => isDownloadL l && isEpubL l)

/-- Links that end up in the tail bucket of `bookDownloadUrls`. -/
def otherLinksOf (ls : List OpdsLink) : List OpdsLink :=
  ls.filter (fun l => isDownloadL l && !isEpubL l)

/-- The download URL list the link loop produces: EPUB URLs in reverse
discovery order, then the remaining format URLs in discovery order. -/
def dlUrls (uj : String → String → String) (base : String)
    (ls : List OpdsLink) : List String :=
  ((epubLinksOf ls).map (linkUrl uj base)).reverse ++
    (otherLinksOf ls).map (linkUrl uj base)

/-- The URL of the first nested-catalog link, if any. -/
def firstCatalogUrl (uj : String → String → String) (base : String)
    (ls : List OpdsLink) : Option String :=
  (ls.find? (fun l => !isImageL l && isAtomL l)).map (linkUrl uj base)

theorem classifyLinks_fst (uj : String → String → String) (base : String) :
    ∀ (ls : List OpdsLink) (E O : List String) (cat : Option String),
      (classifyLinks uj base ls (E.reverse ++ O) cat).1 =
        (E ++ (epubLinksOf ls).map (linkUrl uj base)).reverse ++
          (O ++ (otherLinksOf ls).map (linkUrl uj base)) := by
  intro ls
  induction ls with
  | nil => intro E O cat; simp [classifyLinks, epubLinksOf, otherLinksOf]
  | cons l ls ih =>
    intro E O cat
    by_cases hImg : isImageL l = true
    · have h1 : (isDownloadL l && isEpubL l) = false := by simp [isDownloadL, hImg]
      have h2 : (isDownloadL l && !isEpubL l) = false := by simp [isDownloadL, hImg]
      simp only [classifyLinks, hImg, if_true]
      rw [ih E O cat]
      simp [epubLinksOf, otherLinksOf, List.filter_cons, h1, h2]
    · by_cases hAtom : isAtomL l = true
      · have h1 : (isDownloadL l && isEpubL l) = false := by
          simp [isDownloadL, hAtom]
        have h2 : (isDownloadL l && !isEpubL l) = false := by
          simp [isDownloadL, hAtom]
        simp only [classifyLinks, hImg, hAtom, if_false, if_true, Bool.false_eq_true]
        rw [ih E O _]
        simp [epubLinksOf, otherLinksOf, List.filter_cons, h1, h2]
      · have hDl : isDownloadL l = true := by
          simp [isDownloadL, hImg, hAtom]
        by_cases hEpub : isEpubL l = true
        · have h1 : (isDownloadL l && isEpubL l) = true := by simp [hDl, hEpub]
          have h2 : (isDownloadL l && !isEpubL l) = false := by simp [hDl, hEpub]
          have hacc : absolutize uj base l.href :: (E.reverse ++ O) =
              (E ++ [absolutize uj base l.href]).reverse ++ O := by simp
          simp only [classifyLinks, hImg, hAtom, hEpub, if_false, if_true,
            Bool.false_eq_true]
          rw [hacc, ih (E ++ [absolutize uj base l.href]) O cat]
          simp [epubLinksOf, otherLinksOf, List.filter_cons, h1, h2, linkUrl,
            List.append_assoc]
        · have h1 : (isDownloadL l && isEpubL l) = false := by simp [hDl, hEpub]
          have h2 : (isDownloadL l && !isEpubL l) = true := by
            simp [hDl]
            simp at hEpub
            simp [hEpub]
          have hacc : (E.reverse ++ O) ++ [absolutize uj base l.href] =
              E.reverse ++ (O ++ [absolutize uj base l.href]) := by
            simp [List.append_assoc]
          simp only [classifyLinks, hImg, hAtom, hEpub, if_false, if_true,
            Bool.false_eq_true]
          rw [hacc, ih E (O ++ [absolutize uj base l.href]) cat]
          simp [epubLinksOf, otherLinksOf, List.filter_cons, h1, h2, linkUrl,
            List.append_assoc]

theorem classifyLinks_snd_some (uj : String → String → String) (base : String) :
    ∀ (ls : List OpdsLink) (acc : List String) (c : String),
      (classifyLinks uj base ls acc (some c)).2 = some c := by
  intro ls
  induction ls with
  | nil => intro acc c; simp [classifyLinks]
  | cons l ls ih =>
    intro acc c
    simp only [classifyLinks]
    by_cases hImg : isImageL l = true
    · simp [hImg, ih]
    · by_cases hAtom : isAtomL l = true
      · simp [hImg, hAtom, ih]
      · by_cases hEpub : isEpubL l = true
        · simp [hImg, hAtom, hEpub, ih]
        · simp [hImg, hAtom, hEpub, ih]

theorem classifyLinks_snd_none (uj : String → String → String) (base : String) :
    ∀ (ls : List OpdsLink) (acc : List String),
      (classifyLinks uj base ls acc none).2 = firstCatalogUrl uj base ls := by
  intro ls
  induction ls with
  | nil => intro acc; simp [classifyLinks, firstCatalogUrl]
  | cons l ls ih =>
    intro acc
    by_cases hImg : isImageL l = true
    · have hfind : List.find? (fun x => !isImageL x && isAtomL x) (l :: ls) =
          List.find? (fun x => !isImageL x && isAtomL x) ls :=
        List.find?_cons_of_neg ls (by simp [hImg])
      simp only [classifyLinks, hImg, if_true]
      rw [ih acc]
      simp [firstCatalogUrl, hfind]
    · by_cases hAtom : isAtomL l = true
      · have hfind : List.find? (fun x => !isImageL x && isAtomL x) (l :: ls) =
            some l :=
          List.find?_cons_of_pos ls (by simp [hImg, hAtom])
        simp only [classifyLinks, hImg, hAtom, if_false, if_true, Bool.false_eq_true]
        rw [classifyLinks_snd_some]
        simp [firstCatalogUrl, hfind, linkUrl]
      · have hfind : List.find? (fun x => !isImageL x && isAtomL x) (l :: ls) =
            List.find? (fun x => !isImageL x && isAtomL x) ls :=
          List.find?_cons_of_neg ls (by simp [hAtom])
        by_cases hEpub : isEpubL l = true
        · simp only [classifyLinks, hImg, hAtom, hEpub, if_false, if_true,
            Bool.false_eq_true]
          rw [ih]
          simp [firstCatalogUrl, hfind]
        · simp only [classifyLinks, hImg, hAtom, hEpub, if_false, if_true,
            Bool.false_eq_true]
          rw [ih]
          simp [firstCatalogUrl, hfind]

theorem linkDecision_eq (uj : String → String → String) (base : String)
    (ls : List OpdsLink) :
    linkDecision uj base ls =
      if (dlUrls uj base ls).isEmpty then
        (match firstCatalogUrl uj base ls with
         | some c => if c = "" then ([], none) else ([], some c)
         | none => ([], none))
      else (dlUrls uj base ls, none) := by
  have hfst : (classifyLinks uj base ls [] none).1 = dlUrls uj base ls := by
    have := classifyLinks_fst uj base ls [] [] none
    simpa [dlUrls] using this
  have hsnd : (classifyLinks uj base ls [] none).2 = firstCatalogUrl uj base ls :=
    classifyLinks_snd_none uj base ls []
  simp only [linkDecision, hfst, hsnd]

/-- Field-level description of a successful `opdsToMetadata` conversion. -/
theorem opdsToMetadata_fields (uj : String → String → String) (base : String)
    (e : OpdsEntry) (m : BookMetadata) (h : opdsToMetadata uj base e = some m) :
    m.tags = extractTags e.summary ∧
    m.links = (linkDecision uj base e.links).1 ∧
    m.catalogUrl = (linkDecision uj base e.links).2 ∧
    parseTsS (stripTzS (rawTimestampOf e)) = m.timestamp := by
  cases hts : parseTsS (stripTzS (rawTimestampOf e)) with
  | none => simp [opdsToMetadata, hts] at h
  | some ts =>
    simp only [opdsToMetadata, hts, Option.some.injEq] at h
    subst h
    simp

theorem opdsToMetadata_timestamp (uj : String → String → String) (base : String)
    (e : OpdsEntry) (ts : DateTime)
    (h : parseTsS (stripTzS (rawTimestampOf e)) = some ts) :
    (opdsToMetadata uj base e).map (fun m => m.timestamp) = some (some ts) := by
  simp [opdsToMetadata, h]

/-- Whatever the final decision takes, `links` is exactly the accumulated
download URL list (empty in the sub-catalog and inert cases, where that list
is empty anyway). -/
theorem opdsToMetadata_links_eq (uj : String → String → String) (base : String)
    (e : OpdsEntry) (m : BookMetadata) (h : opdsToMetadata uj base e = some m) :
    m.links = dlUrls uj base e.links := by
  obtain ⟨-, hlinks, -, -⟩ := opdsToMetadata_fields uj base e m h
  rw [linkDecision_eq] at hlinks
  cases hd : (dlUrls uj base e.links).isEmpty with
  | false => rw [hd] at hlinks; simpa using hlinks
  | true =>
    have hnil : dlUrls uj base e.links = [] := List.isEmpty_iff.mp hd
    rw [hd] at hlinks
    rw [hnil]
    rcases hf : firstCatalogUrl uj base e.links with _ | c
    · simpa [hf] using hlinks
    · by_cases hc : c = "" <;> simpa [hf, hc] using hlinks

/-- The `catalogUrl` attribute is set exactly when the download list came out
empty and the first nested-catalog URL is truthy. -/
theorem opdsToMetadata_catalogUrl_eq (uj : String → String → String)
    (base : String) (e : OpdsEntry) (m : BookMetadata)
    (h : opdsToMetadata uj base e = some m) :
    m.catalogUrl =
      if dlUrls uj base e.links = [] then
        (match firstCatalogUrl uj base e.links with
         | some c => if c = "" then none else some c
         | none => none)
      else none := by
  obtain ⟨-, -, hcat, -⟩ := opdsToMetadata_fields uj base e m h
  rw [linkDecision_eq] at hcat
  cases hd : (dlUrls uj base e.links).isEmpty with
  | false =>
    have hne : dlUrls uj base e.links ≠ [] := by
      intro hn; rw [hn] at hd; exact absurd hd (by simp)
    rw [hd] at hcat
    rw [if_neg hne]
    simpa using hcat
  | true =>
    have hnil : dlUrls uj base e.links = [] := List.isEmpty_iff.mp hd
    rw [hd] at hcat
    rw [if_pos hnil]
    rcases hf : firstCatalogUrl uj base e.links with _ | c
    · simpa [hf] using hcat
    · by_cases hc : c = "" <;> simpa [hf, hc] using hcat

/-- A member of the entry that survives the image/atom dispatch forces a
non-empty download list. -/
theorem dlUrls_ne_nil (uj : String → String → String) (base : String)
    (ls : List OpdsLink) (l : OpdsLink) (hl : l ∈ ls)
    (hdl : isDownloadL l = true) : dlUrls uj base ls ≠ [] := by
  intro hnil
  unfold dlUrls at hnil
  obtain ⟨h1, h2⟩ := List.append_eq_nil.mp hnil
  rw [List.reverse_eq_nil_iff, List.map_eq_nil_iff] at h1
  rw [List.map_eq_nil_iff] at h2
  unfold epubLinksOf at h1
  unfold otherLinksOf at h2
  rw [List.filter_eq_nil_iff] at h1 h2
  by_cases he : isEpubL l = true
  · exact absurd (by simp [hdl, he] : (isDownloadL l && isEpubL l) = true) (h1 l hl)
  · have he' : isEpubL l = false := by
      cases hv : isEpubL l
      · rfl
      · exact absurd hv he
    exact absurd (by simp [hdl, he'] : (isDownloadL l && !isEpubL l) = true) (h2 l hl)

/-- Every accumulated download URL originates from a non-image, non-catalog
link of the entry. -/
theorem mem_dlUrls (uj : String → String → String) (base : String)
    (ls : List OpdsLink) (u : String) (hu : u ∈ dlUrls uj base ls) :
    ∃ l ∈ ls, isDownloadL l = true ∧ u = linkUrl uj base l := by
  unfold dlUrls at hu
  rcases List.mem_append.mp hu with hu | hu
  · rw [List.mem_reverse] at hu
    obtain ⟨l, hlf, hle⟩ := List.mem_map.mp hu
    obtain ⟨hls, hp⟩ := List.mem_filter.mp hlf
    exact ⟨l, hls, (Bool.and_eq_true _ _ |>.mp hp).1, hle.symm⟩
  · obtain ⟨l, hlf, hle⟩ := List.mem_map.mp hu
    obtain ⟨hls, hp⟩ := List.mem_filter.mp hlf
    exact ⟨l, hls, (Bool.and_eq_true _ _ |>.mp hp).1, hle.symm⟩

/-! ## C1: classification of an entry into Book / SubCatalog / inert row -/

/-- C1 (amended). For every successfully parsed entry: (1) at least one link
that is neither image-typed nor atom-typed makes the result a Book (non-empty
`links`, no `catalogUrl`), even in the presence of nested-catalog links;
(2) with zero such download links, `links` is empty and `catalogUrl` is the
first non-image `application/atom+xml` link's href absolutized against the
base URL — provided that absolutized href is non-empty, the attribute staying
absent otherwise (amendment: the source checks the remembered URL for
truthiness, so an atom link whose href absolutizes to `""` yields an inert
Book, not a SubCatalog); (3) every stored download URL and (4) the stored
catalog URL originate from non-image links only. -/
theorem claim1_classification (uj : String → String → String) (base : String)
    (e : OpdsEntry) (m : BookMetadata) (h : opdsToMetadata uj base e = some m) :
    ((∃ l ∈ e.links, isDownloadL l = true) → m.links ≠ [] ∧ m.catalogUrl = none) ∧
    ((∀ l ∈ e.links, isDownloadL l = false) →
      m.links = [] ∧
      m.catalogUrl =
        (match firstCatalogUrl uj base e.links with
         | some c => if c = "" then none else some c
         | none => none)) ∧
    (∀ u ∈ m.links, ∃ l ∈ e.links, isDownloadL l = true ∧ u = linkUrl uj base l) ∧
    (∀ c, m.catalogUrl = some c →
      ∃ l ∈ e.links, (!isImageL l && isAtomL l) = true ∧ c = linkUrl uj base l ∧ c ≠ "") := by
  have hlinks := opdsToMetadata_links_eq uj base e m h
  have hcat := opdsToMetadata_catalogUrl_eq uj base e m h
  refine ⟨?_, ?_, ?_, ?_⟩
  · rintro ⟨l, hl, hdl⟩
    have hne := dlUrls_ne_nil uj base e.links l hl hdl
    refine ⟨by rw [hlinks]; exact hne, ?_⟩
    rw [hcat, if_neg hne]
  · intro hall
    have h1 : epubLinksOf e.links = [] :=
      List.filter_eq_nil_iff.mpr (fun a ha => by simp [hall a ha])
    have h2 : otherLinksOf e.links = [] :=
      List.filter_eq_nil_iff.mpr (fun a ha => by simp [hall a ha])
    have hnil : dlUrls uj base e.links = [] := by simp [dlUrls, h1, h2]
    exact ⟨by rw [hlinks, hnil], by rw [hcat, if_pos hnil]⟩
  · intro u hu
    rw [hlinks] at hu
    exact mem_dlUrls uj base e.links u hu
  · intro c hc
    rw [hcat] at hc
    by_cases hnil : dlUrls uj base e.links = []
    · rw [if_pos hnil] at hc
      rcases hf : firstCatalogUrl uj base e.links with _ | c0
      · rw [hf] at hc; cases hc
      · rw [hf] at hc
        by_cases h0 : c0 = ""
        · simp [h0] at hc
        · simp only [h0, if_false, if_neg h0, Option.some.injEq] at hc
          obtain ⟨l, hfind, hurl⟩ := Option.map_eq_some'.mp hf
          subst hc
          refine ⟨l, List.mem_of_find?_eq_some hfind, ?_, hurl.symm, h0⟩
          simpa using List.find?_some hfind
    · rw [if_neg hnil] at hc; cases hc

/-- C1 counterexample: an entry whose only link is a nested-catalog link with
an empty href has zero download links and one `application/atom+xml` link,
yet it converts to an inert Book (`links = []`, no `catalogUrl` attribute),
not to a SubCatalog as the claim states. -/
theorem claim1_classification_cex :
    (opdsToMetadata uj0 "base" entryAtomEmptyHref).map
        (fun m => (m.links, m.catalogUrl)) = some ([], none) ∧
    entryAtomEmptyHref.links.any (fun l => isAtomL l) = true ∧
    entryAtomEmptyHref.links.all (fun l => !isDownloadL l) = true := by
  refine ⟨by decide, by decide, by decide⟩

/-- C1 witness: a concrete entry with a single PDF link is classified as a
Book with a non-empty download list and no `catalogUrl` attribute. -/
theorem claim1_classification_witness : mPdf.links ≠ [] ∧ mPdf.catalogUrl = none :=
  (claim1_classification uj0 "base" entryPdf mPdf (by decide)).1
    ⟨{ href := "b", rel := "", ltype := "application/pdf" }, by decide, by decide⟩

/-! ## C7: ordering of the download link list -/

/-- C7 (amended). For every successfully parsed entry, `links` consists of
the EPUB-typed download links in *reverse* discovery order (each EPUB link is
inserted at the head of the list on discovery), followed by all other
non-image, non-catalog links in discovery order (amendment: the claim's
"EPUB links first, in discovery order" only matches the code when the entry
has at most one EPUB link). The claim's concrete instance — one EPUB link
then one PDF link — does hold. -/
theorem claim7_epub_order (uj : String → String → String) (base : String)
    (e : OpdsEntry) (m : BookMetadata) (h : opdsToMetadata uj base e = some m) :
    m.links = ((epubLinksOf e.links).map (linkUrl uj base)).reverse ++
      (otherLinksOf e.links).map (linkUrl uj base) ∧
    (∀ A B rA rB, A ≠ "" → B ≠ "" →
      e.links = [{ href := A, rel := rA, ltype := "application/epub+zip" },
                 { href := B, rel := rB, ltype := "application/pdf" }] →
      m.links = [uj base A, uj base B]) := by
  have hlinks := opdsToMetadata_links_eq uj base e m h
  refine ⟨hlinks, ?_⟩
  intro A B rA rB hA hB hshape
  rw [hlinks, hshape]
  have e1 : isImageL { href := A, rel := rA, ltype := "application/epub+zip" } = false := rfl
  have e2 : isAtomL { href := A, rel := rA, ltype := "application/epub+zip" } = false := rfl
  have e3 : isEpubL { href := A, rel := rA, ltype := "application/epub+zip" } = true := rfl
  have p1 : isImageL { href := B, rel := rB, ltype := "application/pdf" } = false := rfl
  have p2 : isAtomL { href := B, rel := rB, ltype := "application/pdf" } = false := rfl
  have p3 : isEpubL { href := B, rel := rB, ltype := "application/pdf" } = false := rfl
  simp [dlUrls, epubLinksOf, otherLinksOf, List.filter_cons, isDownloadL,
    e1, e2, e3, p1, p2, p3, linkUrl, absolutize, hA, hB]

/-- C7 counterexample: an entry with two EPUB links discovered in the order
`A`, `B` produces `links = [B, A]` — reverse discovery order — while the
claim's "EPUB links first, in discovery order" demands `[A, B]`. -/
theorem claim7_epub_order_cex :
    (opdsToMetadata uj0 "base" entryTwoEpubs).map (fun m => m.links) =
      some ["B", "A"] ∧
    (["B", "A"] : List String) ≠ ["A", "B"] := by
  refine ⟨by decide, by decide⟩

/-- C7 witness: the claim's concrete instance — an EPUB link `A` followed by
a PDF link `B` yields `downloadLinks = [A, B]`. -/
theorem claim7_epub_order_witness : mEpubPdf.links = [uj0 "base" "A", uj0 "base" "B"] :=
  (claim7_epub_order uj0 "base" entryEpubPdf mEpubPdf (by decide)).2
    "A" "B" "" "" (by decide) (by decide) (by decide)

/-! ## C6: tag extraction from the summary -/

/-- Lines without a `TAGS:` marker leave the accumulator untouched. -/
theorem tagsFold_no_match :
    ∀ (ls : List String) (acc : List String),
      (∀ l ∈ ls, startsWithS "TAGS: " l = false) →
      ls.foldl (fun a l => if startsWithS "TAGS: " l then processTagsLine l else a)
        acc = acc := by
  intro ls
  induction ls with
  | nil => intro acc _; rfl
  | cons l ls ih =>
    intro acc hall
    have h0 : startsWithS "TAGS: " l = false := hall l (by simp)
    simp only [List.foldl_cons, h0, Bool.false_eq_true, if_false]
    exact ih acc (fun x hx => hall x (by simp [hx]))

/-- C6 (amended). The summary is scanned line by line for lines beginning
with `"TAGS: "`, and because the loop keeps overwriting `tags` without
breaking, the *last* matching line wins (amendment of the claim's "first
matching line wins; later TAGS: lines are ignored"); the marker, the
embedded `<br />` and the `", "` separators are stripped from that line and
the comma-separated remainder becomes the tag list; a summary with no
matching line yields no tags. The claim's single-line instance
`"TAGS: Fiction, News"` yields `{"Fiction", "News"}`, and a row whose tags
contain `"News"` is excluded from `filteredBooks` whenever the
hide-newspapers toggle is active. -/
theorem claim6_tags (uj : String → String → String) (base : String)
    (e : OpdsEntry) (m : BookMetadata) (h : opdsToMetadata uj base e = some m) :
    (m.tags = extractTags e.summary) ∧
    (∀ pre line post, splitLinesS e.summary = pre ++ line :: post →
      startsWithS "TAGS: " line = true →
      (∀ l ∈ post, startsWithS "TAGS: " l = false) →
      m.tags = processTagsLine line) ∧
    ((∀ l ∈ splitLinesS e.summary, startsWithS "TAGS: " l = false) →
      m.tags = []) ∧
    (e.summary = "TAGS: Fiction, News" → m.tags = ["Fiction", "News"]) ∧
    (∀ (inLib : BookMetadata → Bool) (st : Store), st.flagNews = true →
      m.tags.contains "News" = true →
      m ∉ (filterBooks inLib st).filteredBooks) := by
  obtain ⟨htags, -, -, -⟩ := opdsToMetadata_fields uj base e m h
  refine ⟨htags, ?_, ?_, ?_, ?_⟩
  · intro pre line post hsplit hline hpost
    rw [htags]
    unfold extractTags extractTagsLines
    rw [hsplit, List.foldl_append, List.foldl_cons, hline, if_pos rfl]
    exact tagsFold_no_match post _ hpost
  · intro hall
    rw [htags]
    unfold extractTags extractTagsLines
    exact tagsFold_no_match _ [] hall
  · intro hsum
    rw [htags, hsum]
    decide
  · intro inLib st hflag hnews hmem
    have hacc := (List.mem_filter.mp hmem).2
    simp [acceptBook, isFilteredNews, hflag, hnews] at hacc
    exact hacc.1 (by simpa using hnews)

/-- C6 counterexample: for the two-line summary `"TAGS: A\nTAGS: B"` the code
produces `["B"]` — the last matching line — while the claim's "first matching
line wins" demands `["A"]` (the first matching line is `"TAGS: A"`, which
processes to `["A"]`). -/
theorem claim6_tags_cex :
    (opdsToMetadata uj0 "" entryTwoTags).map (fun m => m.tags) = some ["B"] ∧
    (splitLinesS entryTwoTags.summary).filter
        (fun l => startsWithS "TAGS: " l) = ["TAGS: A", "TAGS: B"] ∧
    processTagsLine "TAGS: A" = ["A"] ∧
    (["B"] : List String) ≠ ["A"] := by
  refine ⟨by decide, by decide, by decide, by decide⟩

/-- C6 witness: the summary line `"TAGS: Fiction, News"` yields tags
`["Fiction", "News"]` and the row is excluded from the visible list when the
hide-newspapers filter is on. -/
theorem claim6_tags_witness :
    mTags.tags = ["Fiction", "News"] ∧
    mTags ∉ (filterBooks inLib0 stNewsOn).filteredBooks := by
  have h := claim6_tags uj0 "" entryTags mTags (by decide)
  exact ⟨h.2.2.2.1 rfl, h.2.2.2.2 inLib0 stNewsOn rfl (by decide)⟩

/-! ## C8: timestamp parsing and normalization -/

theorem takeWhile_digit_append (ds r : List Char)
    (hdig : ∀ c ∈ ds, c.isDigit = true) :
    (ds ++ '.' :: r).takeWhile Char.isDigit = ds := by
  induction ds with
  | nil => simp [List.takeWhile_cons, Char.isDigit]
  | cons c cs ih =>
    have hc : c.isDigit = true := hdig c (by simp)
    simp only [List.cons_append, List.takeWhile_cons, hc, if_true]
    rw [ih (fun x hx => hdig x (by simp [hx]))]

/-- C8 (confirmed). The `updated` field defaults to the 1980-01-01 epoch when
absent; the normalizer strips a trailing `Z`, and strips a trailing
single-digit-hour UTC offset together with an immediately preceding
fractional-seconds group; the two concrete claim instances both parse to
2021-03-01T10:00:00. -/
theorem claim8_timestamp (uj : String → String → String) (base : String)
    (e : OpdsEntry) :
    (e.updated = none →
      (opdsToMetadata uj base e).map (fun m => m.timestamp) =
        some (some ⟨1980, 1, 1, 0, 0, 0⟩)) ∧
    (e.updated = some "2021-03-01T10:00:00.123+02:00" →
      (opdsToMetadata uj base e).map (fun m => m.timestamp) =
        some (some ⟨2021, 3, 1, 10, 0, 0⟩)) ∧
    (e.updated = some "2021-03-01T10:00:00Z" →
      (opdsToMetadata uj base e).map (fun m => m.timestamp) =
        some (some ⟨2021, 3, 1, 10, 0, 0⟩)) ∧
    (∀ s : List Char, stripTzL (s ++ ['Z']) = s) ∧
    (∀ (s ds : List Char) (x : Char), ds ≠ [] →
      (∀ c ∈ ds, c.isDigit = true) → x.isDigit = true →
      stripTzL (s ++ ('.' :: (ds ++ ['+', '0', x, ':', '0', '0']))) = s) := by
  refine ⟨?_, ?_, ?_, ?_, ?_⟩
  · intro hupd
    have hraw : rawTimestampOf e = "1980-01-01T00:00:00+00:00" := by
      simp [rawTimestampOf, hupd]
    exact opdsToMetadata_timestamp uj base e ⟨1980, 1, 1, 0, 0, 0⟩
      (by rw [hraw]; decide)
  · intro hupd
    have hraw : rawTimestampOf e = "2021-03-01T10:00:00.123+02:00" := by
      simp [rawTimestampOf, hupd]
    exact opdsToMetadata_timestamp uj base e ⟨2021, 3, 1, 10, 0, 0⟩
      (by rw [hraw]; decide)
  · intro hupd
    have hraw : rawTimestampOf e = "2021-03-01T10:00:00Z" := by
      simp [rawTimestampOf, hupd]
    exact opdsToMetadata_timestamp uj base e ⟨2021, 3, 1, 10, 0, 0⟩
      (by rw [hraw]; decide)
  · intro s
    simp [stripTzL, List.reverse_append]
  · intro s ds x hne hdig hx
    have hrev : (s ++ ('.' :: (ds ++ ['+', '0', x, ':', '0', '0']))).reverse =
        '0' :: '0' :: ':' :: x :: '0' :: '+' :: (ds.reverse ++ '.' :: s.reverse) := by
      simp [List.reverse_append]
    have hoff : offsetMatch
        ('0' :: '0' :: ':' :: x :: '0' :: '+' :: (ds.reverse ++ '.' :: s.reverse)) =
        true := by
      simp [offsetMatch, hx]
    have hdrop6 : List.drop 6
        ('0' :: '0' :: ':' :: x :: '0' :: '+' :: (ds.reverse ++ '.' :: s.reverse)) =
        ds.reverse ++ '.' :: s.reverse := rfl
    have htw : (ds.reverse ++ '.' :: s.reverse).takeWhile Char.isDigit =
        ds.reverse :=
      takeWhile_digit_append ds.reverse s.reverse
        (fun c hc => hdig c (List.mem_reverse.mp hc))
    have hdne : ds.reverse ≠ [] := by
      intro h0
      exact hne (by simpa using congrArg List.reverse h0)
    have hdropLen : (ds.reverse ++ '.' :: s.reverse).drop ds.reverse.length =
        '.' :: s.reverse := List.drop_left _ _
    simp only [stripTzL, hrev, hdrop6, htw]
    rw [if_neg (show ¬('0' :: '0' :: ':' :: x :: '0' :: '+' ::
        (ds.reverse ++ '.' :: s.reverse)).head? = some 'Z' by simp)]
    rw [if_pos hoff]
    rw [if_pos ⟨hdne, by rw [hdropLen]; rfl⟩]
    have hdropAll : (ds.reverse ++ '.' :: s.reverse).drop (ds.reverse.length + 1) =
        s.reverse := by
      rw [← List.drop_drop, hdropLen]
      rfl
    rw [hdropAll, List.reverse_reverse]

/-- C8 witness: the fractional-offset instance evaluated on a concrete entry,
and the `Z`-strip conjunct evaluated on the claim's second instance. -/
theorem claim8_timestamp_witness :
    (opdsToMetadata uj0 "" entryUpdatedFrac).map (fun m => m.timestamp) =
      some (some ⟨2021, 3, 1, 10, 0, 0⟩) ∧
    stripTzL ("2021-03-01T10:00:00".data ++ ['Z']) = "2021-03-01T10:00:00".data :=
  ⟨(claim8_timestamp uj0 "" entryUpdatedFrac).2.1 rfl,
   (claim8_timestamp uj0 "" entryUpdatedFrac).2.2.2.1 "2021-03-01T10:00:00".data⟩

/-! ## C4: the visible list is always the filtered projection -/

/-- C4 (confirmed). Every store operation leaves `filteredBooks` equal to the
filter of the current `books` under the currently active predicates:
`filterBooks` (used by reset paths and both filter setters) establishes the
invariant outright, `_append_batch` and the two setters preserve it, a
successful `_apply_first_page` establishes it, and back-navigation restore
re-establishes it over the restored book list. -/
theorem claim4_filtered_projection (inLib : BookMetadata → Bool) :
    (∀ st, storeInv inLib (filterBooks inLib st)) ∧
    (∀ st batch, storeInv inLib st → storeInv inLib (appendBatch inLib st batch)) ∧
    (∀ st v, storeInv inLib st → storeInv inLib (setFilterNews inLib v st)) ∧
    (∀ st v, storeInv inLib st → storeInv inLib (setFilterLib inLib v st)) ∧
    (∀ uj st feed base, (applyFirstPage inLib uj st feed base).2 = true →
      storeInv inLib (applyFirstPage inLib uj st feed base).1) ∧
    (∀ d : Dialog, d.catalogHistory ≠ [] →
      storeInv inLib (navigateBack inLib d).store) := by
  have hfb : ∀ st, storeInv inLib (filterBooks inLib st) := by
    intro st
    simp [storeInv, filterBooks]
  refine ⟨hfb, ?_, ?_, ?_, ?_, ?_⟩
  · intro st batch hinv
    by_cases he : batch.filter (acceptBook st.flagNews st.flagLib inLib) = []
    · simp [appendBatch, storeInv, he] at hinv ⊢
      exact hinv
    · have hne : (batch.filter (acceptBook st.flagNews st.flagLib inLib)).isEmpty = false := by
        cases hv : (batch.filter (acceptBook st.flagNews st.flagLib inLib)).isEmpty
        · rfl
        · exact absurd (List.isEmpty_iff.mp hv) he
      simp only [appendBatch, hne, Bool.false_eq_true, if_false]
      simp [storeInv, List.filter_append] at hinv ⊢
      rw [hinv]
  · intro st v hinv
    by_cases hv : v = st.flagNews
    · simp [setFilterNews, hv, hinv]
    · simp [setFilterNews, hv]
      exact hfb _
  · intro st v hinv
    by_cases hv : v = st.flagLib
    · simp [setFilterLib, hv, hinv]
    · simp [setFilterLib, hv]
      exact hfb _
  · intro uj st feed base hok
    rcases hm : makeMetadataFromParsedOpds uj base feed.entries with _ | ms
    · simp [applyFirstPage, hm] at hok
    · rcases hn : findNextUrl uj feed.links base with _ | nu
      · simp [applyFirstPage, hm, hn, storeInv]
      · by_cases h0 : nu = ""
        · simp [applyFirstPage, hm, hn, h0, storeInv]
        · simp [applyFirstPage, hm, hn, h0, storeInv]
  · intro d hne
    rcases hh : d.catalogHistory with _ | ⟨snap, rest⟩
    · exact absurd hh hne
    · simp only [navigateBack, hh]
      exact hfb _

/-- C4 witness: the invariant holds after a full recompute of catalog A's
store and is preserved when appending a fully rejected batch. -/
theorem claim4_filtered_projection_witness :
    storeInv inLib0 (filterBooks inLib0 stNewsOn) ∧
    storeInv inLib0 (appendBatch inLib0 (filterBooks inLib0 stNewsOn) [bNews]) :=
  ⟨(claim4_filtered_projection inLib0).1 stNewsOn,
   (claim4_filtered_projection inLib0).2.1 (filterBooks inLib0 stNewsOn) [bNews]
     ((claim4_filtered_projection inLib0).1 stNewsOn)⟩

/-! ## C10: the asymmetry of `_append_batch` -/

/-- C10 (confirmed). When every row of the incoming batch is rejected by the
active filters, `_append_batch` returns without touching the store at all —
the rejected rows are discarded, not stored; when at least one row is
accepted, the *entire* batch (rejected rows included) is appended to `books`
while only the accepted rows are appended to `filteredBooks`. Hence a
filtered-out row is retained in `books` exactly when it arrived alongside at
least one accepted row. -/
theorem claim10_append_asymmetry (inLib : BookMetadata → Bool) (st : Store)
    (batch : List BookMetadata) :
    (batch.filter (acceptBook st.flagNews st.flagLib inLib) = [] →
      appendBatch inLib st batch = st) ∧
    (batch.filter (acceptBook st.flagNews st.flagLib inLib) ≠ [] →
      (appendBatch inLib st batch).books = st.books ++ batch ∧
      (appendBatch inLib st batch).filteredBooks =
        st.filteredBooks ++ batch.filter (acceptBook st.flagNews st.flagLib inLib)) ∧
    (∀ b ∈ batch, acceptBook st.flagNews st.flagLib inLib b = false →
      batch.filter (acceptBook st.flagNews st.flagLib inLib) ≠ [] →
      b ∈ (appendBatch inLib st batch).books) ∧
    (∀ b, b ∉ st.books → batch.filter (acceptBook st.flagNews st.flagLib inLib) = [] →
      b ∉ (appendBatch inLib st batch).books) := by
  have hempty : batch.filter (acceptBook st.flagNews st.flagLib inLib) = [] →
      appendBatch inLib st batch = st := by
    intro he
    simp [appendBatch, he]
  have hfull : batch.filter (acceptBook st.flagNews st.flagLib inLib) ≠ [] →
      (appendBatch inLib st batch).books = st.books ++ batch ∧
      (appendBatch inLib st batch).filteredBooks =
        st.filteredBooks ++ batch.filter (acceptBook st.flagNews st.flagLib inLib) := by
    intro hne
    have hie : (batch.filter (acceptBook st.flagNews st.flagLib inLib)).isEmpty = false := by
      cases hv : (batch.filter (acceptBook st.flagNews st.flagLib inLib)).isEmpty
      · rfl
      · exact absurd (List.isEmpty_iff.mp hv) hne
    simp [appendBatch, hie]
  refine ⟨hempty, hfull, ?_, ?_⟩
  · intro b hb _ hne
    rw [(hfull hne).1]
    exact List.mem_append.mpr (Or.inr hb)
  · intro b hnotin he
    rw [hempty he]
    exact hnotin

/-- C10 witness: with hide-newspapers on, a batch consisting only of a
newspaper row is discarded outright, while the same row arriving together
with an accepted row is retained in `books`. -/
theorem claim10_append_asymmetry_witness :
    appendBatch inLib0 st10 [bNews] = st10 ∧
    bNews ∈ (appendBatch inLib0 st10 [bNews, bPlain]).books :=
  ⟨(claim10_append_asymmetry inLib0 st10 [bNews]).1 (by decide),
   (claim10_append_asymmetry inLib0 st10 [bNews, bPlain]).2.2.1 bNews (by decide)
     (by decide) (by decide)⟩

/-! ## Helper lemmas about the pager -/

theorem runPager_empty_url (uj : String → String → String)
    (fetch : String → Except String OpdsFeed) (flag : Nat → Bool)
    (fuel c : Nat) : runPager uj fetch flag fuel "" c = [] := by
  cases fuel with
  | zero => rfl
  | succ f => simp [runPager]

/-- One uncancelled step of the pager loop over a page that fetches and
converts successfully. -/
theorem runPager_nocancel_step_ok (uj : String → String → String)
    (fetch : String → Except String OpdsFeed) (f c : Nat) (url : String)
    (feed : OpdsFeed) (books : List BookMetadata) (hu : url ≠ "")
    (hf : fetch url = .ok feed)
    (hm : makeMetadataFromParsedOpds uj url feed.entries = some books) :
    runPager uj fetch (fun _ => false) (f + 1) url c =
      PagerEvent.fetchStarted url c :: PagerEvent.batchEmitted books (c + 1) ::
        runPager uj fetch (fun _ => false) f
          ((findNextUrl uj feed.links url).getD "") (c + 2) := by
  simp [runPager, hu, hf, hm]

/-- One uncancelled step of the pager loop over a page whose fetch fails:
`pageFailed` is emitted and the loop breaks. -/
theorem runPager_nocancel_step_err (uj : String → String → String)
    (fetch : String → Except String OpdsFeed) (f c : Nat) (url msg : String)
    (hu : url ≠ "") (hf : fetch url = .error msg) :
    runPager uj fetch (fun _ => false) (f + 1) url c =
      [PagerEvent.fetchStarted url c, PagerEvent.failEmitted msg (c + 1)] := by
  simp [runPager, hu, hf]

/-- Uncancelled walk of a healthy `rel=next` chain: the trace is exactly one
fetch and one batch per page, in page order. -/
theorem runPager_chain (uj : String → String → String)
    (fetch : String → Except String OpdsFeed) :
    ∀ (pages : List PageSpec) (fuel c : Nat), chainOk uj fetch pages →
      pages.length ≤ fuel →
      runPager uj fetch (fun _ => false) fuel
        ((pages.head?.map (fun p => p.url)).getD "") c = expectedTrace pages c := by
  intro pages
  induction pages with
  | nil =>
    intro fuel c _ _
    simpa [expectedTrace] using runPager_empty_url uj fetch (fun _ => false) fuel c
  | cons p rest ih =>
    intro fuel c hchain hfuel
    simp only [chainOk] at hchain
    obtain ⟨hu, hf, hm, hnext, hrest⟩ := hchain
    cases fuel with
    | zero => simp [List.length_cons] at hfuel
    | succ f =>
      have hfuel2 : rest.length ≤ f := by
        simp [List.length_cons] at hfuel
        omega
      simp only [List.head?_cons, Option.map_some', Option.getD_some]
      rw [runPager_nocancel_step_ok uj fetch f c p.url p.feed p.books hu hf hm]
      cases rest with
      | nil =>
        rw [hnext]
        simp [expectedTrace, runPager_empty_url]
      | cons q rest2 =>
        rw [hnext]
        have := ih f (c + 2) hrest hfuel2
        simp only [List.head?_cons, Option.map_some', Option.getD_some] at this
        simp [expectedTrace, this]

/-- The next-URL scan is a `find?` over the feed links for `rel = "next"` and
a truthy href, absolutizing the winner. -/
theorem findNextUrl_eq_find (uj : String → String → String) :
    ∀ (links : List OpdsLink) (base : String),
      findNextUrl uj links base =
        (links.find? (fun l => l.rel == "next" && l.href != "")).map
          (fun l => absolutize uj base l.href) := by
  intro links base
  induction links with
  | nil => rfl
  | cons l ls ih =>
    by_cases hc : l.rel = "next" ∧ l.href ≠ ""
    · have hp : (l.rel == "next" && l.href != "") = true := by
        simp [hc.1, hc.2]
      rw [findNextUrl, if_pos hc, List.find?_cons_of_pos ls hp]
      rfl
    · have hp : ¬(l.rel == "next" && l.href != "") = true := by
        intro habs
        simp only [Bool.and_eq_true, beq_iff_eq, bne_iff_ne] at habs
        exact hc habs
      rw [findNextUrl, if_neg hc, List.find?_cons_of_neg ls hp, ih]

/-! ## C2: one batch per page, in page order, stopping at the last page -/

/-- C2 (amended). For an uncancelled walk over a chain in which every fetch
succeeds, the pager emits exactly one batch per fetched page, in page order,
and stops after the first page whose feed-level links contain no link with
`rel == "next"` *and a non-empty href* (amendment: the source skips `next`
links whose href is falsy, so such a link does not continue the walk); the
scan takes the first link satisfying both conditions and absolutizes its href
against the current page's URL before the next fetch. -/
theorem claim2_pager_chain (uj : String → String → String)
    (fetch : String → Except String OpdsFeed) (p : PageSpec)
    (rest : List PageSpec) (fuel c : Nat)
    (hchain : chainOk uj fetch (p :: rest))
    (hfuel : (p :: rest).length ≤ fuel) :
    runPager uj fetch (fun _ => false) fuel p.url c = expectedTrace (p :: rest) c ∧
    (∀ (links : List OpdsLink) (base : String),
      findNextUrl uj links base =
        (links.find? (fun l => l.rel == "next" && l.href != "")).map
          (fun l => absolutize uj base l.href)) :=
  ⟨by simpa using runPager_chain uj fetch (p :: rest) fuel c hchain hfuel,
   findNextUrl_eq_find uj⟩

/-- C2 counterexample: a page whose links *do* contain a `rel = "next"` link
(with an empty href) nevertheless terminates the walk after one batch, while
the claim's termination condition ("no link with rel == next") says the walk
must continue. -/
theorem claim2_pager_chain_cex :
    runPager uj0 fetchW (fun _ => false) 5 "w1" 0 =
      [PagerEvent.fetchStarted "w1" 0, PagerEvent.batchEmitted [] 1] ∧
    feedW.links.any (fun l => l.rel == "next") = true := by
  refine ⟨by decide, by decide⟩

/-- C2 witness: the three-page chain (pages 1 and 2 carry a next link, page 3
does not) yields exactly three batches, in page order, then stops. -/
theorem claim2_pager_chain_witness :
    runPager uj0 fetch3 (fun _ => false) 3 "u1" 0 =
      expectedTrace [page1, page2, page3] 0 ∧
    (expectedTrace [page1, page2, page3] 0).length = 6 :=
  ⟨(claim2_pager_chain uj0 fetch3 page1 [page2, page3] 3 0
      (by simp only [chainOk]
          exact ⟨by decide, by decide, by decide, by decide, by decide, by decide,
                 by decide, by decide, by decide, by decide, by decide, by decide,
                 trivial⟩)
      (by decide)).1,
   by decide⟩

/-! ## C3: cooperative cancellation of the pager -/

/-- The pager yields nothing once the guard poll sees the flag set. -/
theorem runPager_guard_cancelled (uj : String → String → String)
    (fetch : String → Except String OpdsFeed) (flag : Nat → Bool) (f c : Nat)
    (url : String) (hc : flag c = true) :
    runPager uj fetch flag (f + 1) url c = [] := by
  by_cases hu : url = "" <;> simp [runPager, hu, hc]

/-- One step of the pager loop with an arbitrary flag, when the guard poll
passes. -/
theorem runPager_step_live (uj : String → String → String)
    (fetch : String → Except String OpdsFeed) (flag : Nat → Bool) (f c : Nat)
    (url : String) (hu : url ≠ "") (hc : flag c = false) :
    runPager uj fetch flag (f + 1) url c =
      PagerEvent.fetchStarted url c ::
      (match fetch url with
       | .error msg =>
         if flag (c + 1) then [] else [PagerEvent.failEmitted msg (c + 1)]
       | .ok feed =>
         match makeMetadataFromParsedOpds uj url feed.entries with
         | none => []
         | some books =>
           if flag (c + 1) then []
           else
             PagerEvent.batchEmitted books (c + 1) ::
             runPager uj fetch flag f
               ((findNextUrl uj feed.links url).getD "") (c + 2)) := by
  simp [runPager, hu, hc]

/-- With a level-triggered flag that turns on at poll `t`, every event of the
walk — fetch start, batch delivery, failure report — happens at a poll index
strictly before `t`. -/
theorem runPager_poll_lt (uj : String → String → String)
    (fetch : String → Except String OpdsFeed) (t : Nat) :
    ∀ (fuel : Nat) (url : String) (c0 : Nat),
      ∀ e ∈ runPager uj fetch (fun c => decide (t ≤ c)) fuel url c0,
        pollOf e < t := by
  intro fuel
  induction fuel with
  | zero => intro url c0 e he; simp [runPager] at he
  | succ f ih =>
    intro url c0 e he
    by_cases hu : url = ""
    · rw [hu, runPager_empty_url] at he
      simp at he
    · by_cases hc : t ≤ c0
      · rw [runPager_guard_cancelled uj fetch _ f c0 url (by simp [hc])] at he
        simp at he
      · rw [runPager_step_live uj fetch _ f c0 url hu (by simp [hc])] at he
        rcases List.mem_cons.mp he with rfl | he2
        · simp only [pollOf]
          omega
        · cases hfetch : fetch url with
          | error msg =>
            simp only [hfetch] at he2
            by_cases hc1 : t ≤ c0 + 1
            · simp [hc1] at he2
            · simp only [decide_eq_true_eq, if_neg hc1, List.mem_singleton] at he2
              subst he2
              simp only [pollOf]
              omega
          | ok feed =>
            simp only [hfetch] at he2
            cases hmk : makeMetadataFromParsedOpds uj url feed.entries with
            | none => simp [hmk] at he2
            | some books =>
              simp only [hmk] at he2
              by_cases hc1 : t ≤ c0 + 1
              · simp [hc1] at he2
              · simp only [decide_eq_true_eq, if_neg hc1, List.mem_cons] at he2
                rcases he2 with rfl | he3
                · simp only [pollOf]
                  omega
                · exact ih _ _ e he3

/-- Every delivered batch sits right after its own fetch: the batch delivered
at poll `p` has a fetch-start event at poll `p - 1` in the same trace. -/
theorem runPager_batch_fetch (uj : String → String → String)
    (fetch : String → Except String OpdsFeed) (flag : Nat → Bool) :
    ∀ (fuel : Nat) (url : String) (c0 : Nat) (bs : List BookMetadata) (p : Nat),
      PagerEvent.batchEmitted bs p ∈ runPager uj fetch flag fuel url c0 →
      ∃ u, PagerEvent.fetchStarted u (p - 1) ∈ runPager uj fetch flag fuel url c0 := by
  intro fuel
  induction fuel with
  | zero => intro url c0 bs p h; simp [runPager] at h
  | succ f ih =>
    intro url c0 bs p h
    by_cases hu : url = ""
    · rw [hu, runPager_empty_url] at h
      simp at h
    · by_cases hc : flag c0 = true
      · rw [runPager_guard_cancelled uj fetch flag f c0 url hc] at h
        simp at h
      · have hc' : flag c0 = false := by
          cases hv : flag c0
          · rfl
          · exact absurd hv hc
        rw [runPager_step_live uj fetch flag f c0 url hu hc'] at h ⊢
        rcases List.mem_cons.mp h with habs | h2
        · simp at habs
        · cases hfetch : fetch url with
          | error msg =>
            simp only [hfetch] at h2
            by_cases hc1 : flag (c0 + 1) = true
            · simp [hc1] at h2
            · have hc1' : flag (c0 + 1) = false := by
                cases hv : flag (c0 + 1)
                · rfl
                · exact absurd hv hc1
              simp [hc1'] at h2
          | ok feed =>
            simp only [hfetch] at h2
            cases hmk : makeMetadataFromParsedOpds uj url feed.entries with
            | none => simp [hmk] at h2
            | some books =>
              simp only [hmk] at h2
              by_cases hc1 : flag (c0 + 1) = true
              · simp [hc1] at h2
              · have hc1' : flag (c0 + 1) = false := by
                  cases hv : flag (c0 + 1)
                  · rfl
                  · exact absurd hv hc1
                simp only [hc1', Bool.false_eq_true, if_false, List.mem_cons] at h2
                rcases h2 with heq | h3
                · injection heq with hbs hp
                  subst hp
                  refine ⟨url, ?_⟩
                  simp [hfetch, hmk, hc1', Nat.add_sub_cancel]
                · obtain ⟨u, hmem⟩ := ih _ _ bs p h3
                  refine ⟨u, ?_⟩
                  simp only [hfetch, hmk, hc1', Bool.false_eq_true, if_false,
                    List.mem_cons]
                  exact Or.inr (Or.inr hmem)

/-- C3 (confirmed). With the interruption flag modelled as turning on at poll
index `t` (level-triggered, monotone), every observable event of the run —
each fetch start and each batch delivery — happens at a poll index strictly
below `t`: no fetch is started and no batch is delivered at or after the
first poll that observes the flag set. Moreover every delivered batch passed
a dedicated post-fetch poll: its poll index sits immediately after the
fetch-start poll of the same page, witnessing that the flag is rechecked
after the fetch completes and before delivery. -/
theorem claim3_cancellation (uj : String → String → String)
    (fetch : String → Except String OpdsFeed) (t fuel : Nat) (url : String)
    (c0 : Nat) :
    (∀ e ∈ runPager uj fetch (fun c => decide (t ≤ c)) fuel url c0,
      pollOf e < t) ∧
    (∀ (bs : List BookMetadata) (p : Nat),
      PagerEvent.batchEmitted bs p ∈
          runPager uj fetch (fun c => decide (t ≤ c)) fuel url c0 →
      ∃ u, PagerEvent.fetchStarted u (p - 1) ∈
          runPager uj fetch (fun c => decide (t ≤ c)) fuel url c0) :=
  ⟨runPager_poll_lt uj fetch t fuel url c0,
   fun bs p h => runPager_batch_fetch uj fetch _ fuel url c0 bs p h⟩

/-- C3 witness: on the three-page chain with cancellation arriving at poll 5,
the batch delivered at poll 1 happened before the cancellation and its fetch
is in the trace at poll 0. (The trace itself stops before page 3's batch.) -/
theorem claim3_cancellation_witness :
    pollOf (PagerEvent.batchEmitted [] 1) < 5 ∧
    (∃ u, PagerEvent.fetchStarted u 0 ∈
        runPager uj0 fetch3 (fun c => decide (5 ≤ c)) 3 "u1" 0) :=
  ⟨(claim3_cancellation uj0 fetch3 5 3 "u1" 0).1 (PagerEvent.batchEmitted [] 1)
     (by decide),
   (claim3_cancellation uj0 fetch3 5 3 "u1" 0).2 [] 1 (by decide)⟩

/-! ## C9: failure handling on the first page and mid-pagination -/

/-- Uncancelled walk of a chain whose last link points at a failing URL: all
earlier batches are delivered in order, then the failing fetch is started and
`pageFailed` is emitted, and nothing else happens. -/
theorem runPager_chain_fail (uj : String → String → String)
    (fetch : String → Except String OpdsFeed) (msg : String) :
    ∀ (pages : List PageSpec) (bad : String) (fuel c : Nat),
      chainToFail uj fetch pages bad → fetch bad = .error msg →
      pages.length + 1 ≤ fuel →
      runPager uj fetch (fun _ => false) fuel
          ((pages.head?.map (fun p => p.url)).getD bad) c =
        expectedTrace pages c ++
          [PagerEvent.fetchStarted bad (c + 2 * pages.length),
           PagerEvent.failEmitted msg (c + 2 * pages.length + 1)] := by
  intro pages
  induction pages with
  | nil =>
    intro bad fuel c hchain hbad hfuel
    simp only [chainToFail] at hchain
    cases fuel with
    | zero => omega
    | succ f =>
      simp only [List.head?_nil, Option.map_none', Option.getD_none]
      rw [runPager_nocancel_step_err uj fetch f c bad msg hchain hbad]
      simp [expectedTrace]
  | cons p rest ih =>
    intro bad fuel c hchain hbad hfuel
    simp only [chainToFail] at hchain
    obtain ⟨hu, hf, hm, hnext, hrest⟩ := hchain
    cases fuel with
    | zero => simp [List.length_cons] at hfuel
    | succ f =>
      have hfuel2 : rest.length + 1 ≤ f := by
        simp [List.length_cons] at hfuel
        omega
      simp only [List.head?_cons, Option.map_some', Option.getD_some]
      rw [runPager_nocancel_step_ok uj fetch f c p.url p.feed p.books hu hf hm]
      cases rest with
      | nil =>
        rw [hnext]
        have hrec := ih bad f (c + 2) hrest hbad hfuel2
        simp only [List.head?_nil, Option.map_none', Option.getD_none] at hrec
        simp only [Option.getD_some]
        rw [hrec]
        simp only [expectedTrace, List.length_cons, List.length_nil,
          List.nil_append, List.cons_append]
      | cons q rest2 =>
        rw [hnext]
        have hrec := ih bad f (c + 2) hrest hbad hfuel2
        simp only [List.head?_cons, Option.map_some', Option.getD_some] at hrec
        simp only [Option.getD_some]
        rw [hrec]
        have h1 : (c + 2) + 2 * (q :: rest2).length =
            c + 2 * (p :: q :: rest2).length := by
          simp only [List.length_cons]
          omega
        rw [h1]
        simp [expectedTrace, List.cons_append]

/-- C9 (confirmed). A fetch failure on a page after the first stops the walk
after emitting `pageFailed`, with all batches fetched before the failure
already delivered in order and no further fetch started; a failure delivered
to `downloadOpdsCatalogAsync` — either as a transport error or as a feed
whose entries fail to convert inside `_apply_first_page` — fires the error
callback and leaves `books` and `filteredBooks` untouched; and
`_append_batch` only ever appends, so entries already merged are retained
unchanged by every batch application. -/
theorem claim9_failure_handling (inLib : BookMetadata → Bool)
    (uj : String → String → String) (fetch : String → Except String OpdsFeed)
    (msg : String) (pages : List PageSpec) (bad : String) (fuel c : Nat)
    (hchain : chainToFail uj fetch pages bad)
    (hbad : fetch bad = .error msg)
    (hfuel : pages.length + 1 ≤ fuel) :
    (runPager uj fetch (fun _ => false) fuel
        ((pages.head?.map (fun p => p.url)).getD bad) c =
      expectedTrace pages c ++
        [PagerEvent.fetchStarted bad (c + 2 * pages.length),
         PagerEvent.failEmitted msg (c + 2 * pages.length + 1)]) ∧
    (∀ (st : Store) (url : String),
      (downloadOpdsCatalogAsync inLib uj st url (.error msg)).1.books = st.books ∧
      (downloadOpdsCatalogAsync inLib uj st url (.error msg)).1.filteredBooks =
        st.filteredBooks ∧
      (downloadOpdsCatalogAsync inLib uj st url (.error msg)).2 =
        .fetchError msg) ∧
    (∀ (st : Store) (url : String) (feed : OpdsFeed),
      makeMetadataFromParsedOpds uj url feed.entries = none →
      (downloadOpdsCatalogAsync inLib uj st url (.ok feed)).1.books = st.books ∧
      (downloadOpdsCatalogAsync inLib uj st url (.ok feed)).1.filteredBooks =
        st.filteredBooks ∧
      (downloadOpdsCatalogAsync inLib uj st url (.ok feed)).2 = .applyError) ∧
    (∀ (st : Store) (batch : List BookMetadata), ∃ tail1 tail2,
      (appendBatch inLib st batch).books = st.books ++ tail1 ∧
      (appendBatch inLib st batch).filteredBooks = st.filteredBooks ++ tail2) := by
  refine ⟨runPager_chain_fail uj fetch msg pages bad fuel c hchain hbad hfuel,
    ?_, ?_, ?_⟩
  · intro st url
    refine ⟨rfl, rfl, rfl⟩
  · intro st url feed hmk
    refine ⟨?_, ?_, ?_⟩ <;> simp [downloadOpdsCatalogAsync, applyFirstPage, hmk]
  · intro st batch
    by_cases he : batch.filter (acceptBook st.flagNews st.flagLib inLib) = []
    · exact ⟨[], [], by simp [appendBatch, he], by simp [appendBatch, he]⟩
    · have hie : (batch.filter (acceptBook st.flagNews st.flagLib inLib)).isEmpty =
          false := by
        cases hv : (batch.filter (acceptBook st.flagNews st.flagLib inLib)).isEmpty
        · rfl
        · exact absurd (List.isEmpty_iff.mp hv) he
      exact ⟨batch, batch.filter (acceptBook st.flagNews st.flagLib inLib),
        by simp [appendBatch, hie], by simp [appendBatch, hie]⟩

/-- C9 witness: a one-page chain whose next link points at a failing URL
delivers page 1's batch then reports `pageFailed`; a transport error handed
to the first-page path leaves catalog A's store untouched; a feed whose
single entry has an unparseable timestamp makes the first-page apply step
fail without touching the book lists. -/
theorem claim9_failure_handling_witness :
    runPager uj0 fetchF (fun _ => false) 2 "f1" 0 =
      expectedTrace [pageF1] 0 ++
        [PagerEvent.fetchStarted "fb" 2, PagerEvent.failEmitted "boom" 3] ∧
    (downloadOpdsCatalogAsync inLib0 uj0 st5 "f1" (.error "boom")).1.books =
      st5.books ∧
    (downloadOpdsCatalogAsync inLib0 uj0 st5 "x" (.ok feedBad)).2 =
      FirstPageOutcome.applyError := by
  have h := claim9_failure_handling inLib0 uj0 fetchF "boom" [pageF1] "fb" 2 0
    (by simp only [chainToFail]
        exact ⟨by decide, by decide, by decide, by decide, by decide⟩)
    (by decide) (by decide)
  exact ⟨by simpa using h.1, (h.2.1 st5 "f1").1,
         (h.2.2.1 st5 "x" feedBad (by decide)).2.2⟩

/-! ## C5: back-navigation -/

/-- C5 (amended). Back-navigation pops the snapshot pushed at descent time
(and is a no-op on an empty stack), cancels the in-flight continuation walk
and first-page fetch, and restores items, server identity, URL and breadcrumb
verbatim from the snapshot. The visible list, however, is *recomputed* from
the restored items under the filter flags current at back-navigation time —
the snapshot does not record filter state (amendment: the claim's
"bit-identical … including any filter state at time of snapshot" only holds
when the filter flags are unchanged between descent and back; the final
conjunct states that conditional form). -/
theorem claim5_back_navigation (inLib : BookMetadata → Bool) (d : Dialog)
    (snap : Snapshot) (rest : List Snapshot)
    (hh : d.catalogHistory = snap :: rest) :
    ((navigateBack inLib d).catalogHistory = rest ∧
     (navigateBack inLib d).store.pagerActive = false ∧
     (navigateBack inLib d).store.firstActive = false ∧
     (navigateBack inLib d).store.books = snap.books ∧
     (navigateBack inLib d).store.serverHeader = snap.serverHeader ∧
     (navigateBack inLib d).currentCatalogUrl = snap.url ∧
     (navigateBack inLib d).breadcrumbs = snap.breadcrumbs ∧
     (navigateBack inLib d).store.filteredBooks =
       snap.books.filter (acceptBook d.store.flagNews d.store.flagLib inLib)) ∧
    (∀ e : Dialog, e.catalogHistory = [] → navigateBack inLib e = e) ∧
    (∀ (uj : String → String → String) (t cu : String),
      (activateSubcatalogItem uj d t cu).catalogHistory =
        (⟨d.store.books, d.store.serverHeader, d.currentCatalogUrl,
          d.breadcrumbs⟩ : Snapshot) :: d.catalogHistory) ∧
    (∀ d0 : Dialog, storeInv inLib d0.store →
      snap = ⟨d0.store.books, d0.store.serverHeader, d0.currentCatalogUrl,
              d0.breadcrumbs⟩ →
      d.store.flagNews = d0.store.flagNews →
      d.store.flagLib = d0.store.flagLib →
      (navigateBack inLib d).store.filteredBooks = d0.store.filteredBooks) := by
  have hstep : navigateBack inLib d =
      { store := filterBooks inLib
          { d.store with firstActive := false, pagerActive := false,
                         books := snap.books, serverHeader := snap.serverHeader },
        catalogHistory := rest, currentCatalogUrl := snap.url,
        breadcrumbs := snap.breadcrumbs, opdsUrlText := d.opdsUrlText } := by
    simp only [navigateBack, hh]
  refine ⟨⟨?_, ?_, ?_, ?_, ?_, ?_, ?_, ?_⟩, ?_, ?_, ?_⟩
  · rw [hstep]
  · rw [hstep]; simp [filterBooks]
  · rw [hstep]; simp [filterBooks]
  · rw [hstep]; simp [filterBooks]
  · rw [hstep]; simp [filterBooks]
  · rw [hstep]
  · rw [hstep]
  · rw [hstep]; simp [filterBooks]
  · intro e he
    simp only [navigateBack, he]
  · intro uj t cu
    simp [activateSubcatalogItem]
  · intro d0 hinv hsnap hfn hfl
    rw [hstep]
    simp only [filterBooks]
    rw [hsnap]
    simp only [hfn, hfl]
    rw [storeInv] at hinv
    exact hinv.symm

/-- C5 counterexample: descend from catalog A (both rows visible), switch the
hide-newspapers filter on inside catalog B, navigate back — the restored
visible list is `[bPlain]`, not catalog A's pre-descent `[bNews, bPlain]`:
the snapshot does not record filter state, so the restore is not
bit-identical. -/
theorem claim5_back_navigation_cex :
    d5c.catalogHistory = [snap5] ∧
    snap5.books = d5.store.books ∧
    d5.store.filteredBooks = [bNews, bPlain] ∧
    (navigateBack inLib0 d5c).store.filteredBooks = [bPlain] ∧
    (navigateBack inLib0 d5c).store.filteredBooks ≠ d5.store.filteredBooks := by
  refine ⟨by decide, by decide, by decide, by decide, by decide⟩

/-- C5 witness: descending and navigating straight back (flags untouched)
restores books, server identity, URL, breadcrumb, cancels both workers, and
yields a visible list bit-identical to catalog A's. -/
theorem claim5_back_navigation_witness :
    (navigateBack inLib0 d5b).store.books = snap5.books ∧
    (navigateBack inLib0 d5b).store.pagerActive = false ∧
    (navigateBack inLib0 d5b).store.firstActive = false ∧
    (navigateBack inLib0 d5b).currentCatalogUrl = snap5.url ∧
    (navigateBack inLib0 d5b).breadcrumbs = snap5.breadcrumbs ∧
    (navigateBack inLib0 d5b).store.filteredBooks = d5.store.filteredBooks := by
  obtain ⟨⟨h1, h2, h3, h4, h5, h6, h7, h8⟩, h9, h10, h11⟩ :=
    claim5_back_navigation inLib0 d5b snap5 [] (by decide)
  exact ⟨h4, h2, h3, h6, h7,
         h11 d5 (by unfold storeInv; decide) (by decide) (by decide) (by decide)⟩

end Opds
